import Mathlib

/-!
Verification development for the aegis-email normalization and
feature-extraction library.

The JavaScript sources are shallowly embedded:
* JS strings are modelled as `List Char` (`Str`), string concatenation as
  list append, `.length` as `List.length`, `.slice(0, n)` as `List.take n`.
* Possibly-`undefined` JS values are modelled as `Option`; JS truthiness of
  an optional string (`if (x)`) is `strTruthy` (present and non-empty),
  `x || d` is `jsOrStr`/`jsOrNat`.
* Objects become structures; a thrown exception becomes `Except.error`
  carrying the message string.
* External collaborators (the base64 decoder, the `Date` ISO formatter, the
  streaming HTML tokenizer, the EML parser) are parameters of the embedded
  functions or black-box input structures.

The file is organized as: all definitions first, then all theorems.
-/

set_option linter.unusedVariables false

abbrev Str := List Char

/-- The set of characters matched by the JS regexp class `\s` (also the set
trimmed by `String.prototype.trim`). -/
def jsIsSpace (c : Char) : Bool :=
  c = ' ' || c = '\t' || c = '\n' || c = '\r' || c = '\x0b' || c = '\x0c' ||
  c = '\u00A0' || c = '\u1680' || ('\u2000' ≤ c && c ≤ '\u200A') ||
  c = '\u2028' || c = '\u2029' || c = '\u202F' || c = '\u205F' ||
  c = '\u3000' || c = '\uFEFF'

/-- `String.prototype.toLowerCase`, restricted to the ASCII case mapping
(the only case mapping exercised by header names in this code base). -/
def jsToLower (s : Str) : Str :=
  s.map Char.toLower

/-- Truthiness of an optional JS string: `undefined` and `""` are falsy. -/
def strTruthy : Option Str → Bool
  | some s => !s.isEmpty
  | none => false

/-- JS `x || d` for an optional string `x`: yields `d` when `x` is
`undefined` or empty. -/
def jsOrStr : Option Str → Str → Str
  | some s, d => if s.isEmpty then d else s
  | none, d => d

/-- JS `x || d` for an optional number `x`: yields `d` when `x` is
`undefined` or `0`. -/
def jsOrNat : Option Nat → Nat → Nat
  | some n, d => if n = 0 then d else n
  | none, d => d

/-- `String.prototype.trim`: drop leading and trailing JS whitespace. -/
def jsTrim (s : Str) : Str :=
  ((s.dropWhile jsIsSpace).reverse.dropWhile jsIsSpace).reverse

/-- `s.replace(/\s+/g, ' ')`: each maximal run of JS whitespace becomes one
space.  The boolean argument records whether the previous character was part
of a whitespace run (in which case further whitespace is dropped). -/
def collapseWS : Bool → Str → Str
  | _, [] => []
  | prev, c :: rest =>
    if jsIsSpace c then
      if prev then collapseWS true rest else ' ' :: collapseWS true rest
    else
      c :: collapseWS false rest

/-- Whitespace canonicalization, `s.replace(/\s+/g, ' ').trim()`, as used by
the repository's feature-extraction variant that removes excess whitespace
from the meta context (and as exercised by the repository's test suite). -/
def canonicalize (s : Str) : Str :=
  jsTrim (collapseWS false s)

/-- Two adjacent characters are not both whitespace (used to state that
canonicalized output has no whitespace runs left). -/
def wsApart (a b : Char) : Prop := ¬(jsIsSpace a = true ∧ jsIsSpace b = true)

/-!
## Feature extractor (`featureExtraction.js`)
-/

/-- `body` of a canonical email record. -/
structure EmailBody where
  plain : Str := []
  html : Str := []
deriving DecidableEq

/-- The slice of a canonical email record consumed by the feature
extractor. -/
structure EmailRecord where
  sender : Str := []
  subject : Str := []
  body : EmailBody := {}
deriving DecidableEq

/-- The `features` object produced by `extractFeatures` and consumed by
`extractMetaFeatures`. -/
structure Features where
  sender : Str := []
  subject : Str := []
  markdown : Str := []
deriving DecidableEq

structure MetaFeatures where
  context : Str
  truncatedContext : Str
deriving DecidableEq

/-- `FeatureExtractor.extractMetaFeatures` exactly as written in
`featureExtraction.js`: the context is the raw template-literal join
`sender + " " + subject + " " + markdown` (note: no whitespace
canonicalization is applied there), truncated to 512 characters. -/
def extractMetaFeatures (f : Features) : MetaFeatures :=
  let context := f.sender ++ [' '] ++ f.subject ++ [' '] ++ f.markdown
  { context := context
    truncatedContext := if context.length > 512 then context.take 512 else context }

/-- An attribute `{name, value}` of a captured open tag. -/
structure TagAttribute where
  name : Str
  value : Str
deriving DecidableEq

/-- One open-tag event captured from the HTML body. -/
structure TagOccurrence where
  tag : Str
  position : Nat
  attributes : List TagAttribute
deriving DecidableEq

/-- An open-tag event emitted by the external streaming HTML tokenizer
(`htmlparser2`, treated as a black box): a tag name together with its
attributes in encounter order. -/
structure OpenTagEvent where
  name : Str
  attributes : List (Str × Str)
deriving DecidableEq

/-- The loop body of `extractTagSequence`: for each open-tag event, push
`{tag, position: position++, attributes}`. -/
def tagSeqAux : Nat → List OpenTagEvent → List TagOccurrence
  | _, [] => []
  | pos, ev :: evs =>
    { tag := ev.name, position := pos,
      attributes := ev.attributes.map (fun a => { name := a.1, value := a.2 }) }
      :: tagSeqAux (pos + 1) evs

/-- `FeatureExtractor.extractTagSequence`, parameterized by the external
tokenizer `tokenize` (the sequence of open-tag events it emits for a given
HTML string).  An empty (falsy) `body.html` yields an empty sequence. -/
def extractTagSequence (tokenize : Str → List OpenTagEvent) (email : EmailRecord) :
    List TagOccurrence :=
  if email.body.html = [] then []
  else tagSeqAux 0 (tokenize email.body.html)

/-!
## Mail-API decoder (`gmailDecoder.js`)
-/

/-- One entry of `payload.headers`. -/
structure GHeader where
  name : Str
  value : Str
deriving DecidableEq

/-- The `body` of a Mail-API part: optional inline data, optional attachment
id, optional size (all may be `undefined`). -/
structure GBody where
  attachmentId : Option Str := none
  data : Option Str := none
  size : Option Nat := none
deriving DecidableEq

/-- A Mail-API body part: `{mimeType?, filename?, body?, parts?}`, with
`parts` recursively holding nested parts. -/
inductive GPart : Type where
  | mk (mimeType : Option Str) (filename : Option Str) (body : Option GBody)
      (parts : Option (List GPart)) : GPart

def GPart.mimeType : GPart → Option Str
  | .mk m _ _ _ => m

def GPart.filename : GPart → Option Str
  | .mk _ f _ _ => f

def GPart.body : GPart → Option GBody
  | .mk _ _ b _ => b

def GPart.parts : GPart → Option (List GPart)
  | .mk _ _ _ ps => ps

/-- The message `payload`: a part that additionally carries the header
list. -/
structure GPayload where
  headers : Option (List GHeader) := none
  mimeType : Option Str := none
  filename : Option Str := none
  body : Option GBody := none
  parts : Option (List GPart) := none

/-- The payload viewed as a part (used when the message has no `parts`). -/
def GPayload.asPart (p : GPayload) : GPart :=
  .mk p.mimeType p.filename p.body p.parts

/-- A raw message from the Mail API.  `payload := none` models a `null` or
absent payload. -/
structure GMessage where
  id : Option Str := none
  threadId : Option Str := none
  internalDate : Option Str := none
  labelIds : Option (List Str) := none
  payload : Option GPayload := none

/-- An attachment descriptor as pushed by either decoder.  Fields are
`Option`s because the Mail-API decoder copies possibly-`undefined` source
values verbatim; the EML adapter always produces `some`. -/
structure AttachmentDescriptor where
  id : Option Str
  filename : Option Str
  mimeType : Option Str
  size : Option Nat
deriving DecidableEq

/-- The mutable body/attachment accumulator of `decodeEmail` (the fields of
`decodedEmail` written by `decodeBody`). -/
structure DecAcc where
  plain : Str := []
  html : Str := []
  attachments : List AttachmentDescriptor := []
deriving DecidableEq

/-- The URL-safe-to-standard-base64 character fixup applied to `body.data`
before decoding: every dash becomes a plus, then every underscore becomes a
slash (two global `String.prototype.replace` passes). -/
def urlsafeToStd (s : Str) : Str :=
  (s.map (fun c => if c = '-' then '+' else c)).map (fun c => if c = '_' then '/' else c)

/-- `GmailEmailDecoder.decodeBody`, parameterized by the external standard
base64 decoder `dec` (`Base64.decode` of js-base64).  An attachment leaf
(truthy `body.attachmentId`) pushes a descriptor copying the source fields
verbatim; otherwise truthy inline `body.data` is decoded and appended to
`plain`/`html` according to `mimeType`; anything else is a no-op. -/
def decodeBody (dec : Str → Str) (part : GPart) (acc : DecAcc) : DecAcc :=
  match part.body with
  | none => acc
  | some body =>
    if strTruthy body.attachmentId then
      { acc with attachments := acc.attachments ++
          [{ id := body.attachmentId, filename := part.filename,
             mimeType := part.mimeType, size := body.size }] }
    else if strTruthy body.data then
      let content := dec (urlsafeToStd (body.data.getD []))
      if part.mimeType = some ("text/plain".toList) then
        { acc with plain := acc.plain ++ content }
      else if part.mimeType = some ("text/html".toList) then
        { acc with html := acc.html ++ content }
      else acc
    else acc

mutual

/-- `GmailEmailDecoder.decodeParts`: visit each part in array order. -/
def decodeParts (dec : Str → Str) : List GPart → DecAcc → DecAcc
  | [], acc => acc
  | p :: ps, acc => decodeParts dec ps (decodePart dec p acc)

/-- The `forEach` body of `decodeParts`: recurse into nested `parts` when
the field is present (a JS array is truthy even when empty), otherwise treat
the part as a leaf. -/
def decodePart (dec : Str → Str) : GPart → DecAcc → DecAcc
  | .mk m f b (some ps), acc => decodeParts dec ps acc
  | .mk m f b none, acc => decodeBody dec (.mk m f b none) acc

end

/-- The header/sender/subject accumulator of `decodeEmail`.  The JS
`headers` object is modelled as the list of property assignments performed
on it, in order; `jsObjGet` looks a key up (the latest assignment wins,
matching JS object semantics). -/
structure HeadAcc where
  headers : List (Str × Str) := []
  sender : Str := []
  subject : Str := []

/-- Property lookup on the assignment log of a JS object. -/
def jsObjGet (log : List (Str × Str)) (k : Str) : Option Str :=
  (log.reverse.find? (fun e => e.1 == k)).map (fun e => e.2)

/-- The `forEach` body of header processing in `decodeEmail`: store the
value under the lowercased name, and mirror `from`/`subject` into
`sender`/`subject`. -/
def processHeader (acc : HeadAcc) (h : GHeader) : HeadAcc :=
  let headerName := jsToLower h.name
  let acc1 := { acc with headers := acc.headers ++ [(headerName, h.value)] }
  if headerName = ("from".toList) then { acc1 with sender := h.value }
  else if headerName = ("subject".toList) then { acc1 with subject := h.value }
  else acc1

/-- Digit parsing for the model of JS `Number()`. -/
def parseNatDigits : Str → Option Nat
  | [] => none
  | l => l.foldl (fun acc c =>
      match acc with
      | some a => if c.isDigit then some (a * 10 + (c.toNat - '0'.toNat)) else none
      | none => none) (some 0)

/-- JS `Number(s)` on a trimmed string, restricted to optionally-signed
decimal integer literals (the only shape an epoch-milliseconds
`internalDate` can take): `""` converts to `0`, a digit string to its value,
anything else to NaN (`none`).  Other numeric spellings (hex, exponents,
fractions) are outside the modelled input domain. -/
def parseDecInt : Str → Option Int
  | [] => some 0
  | '-' :: rest => (parseNatDigits rest).map (fun n => -(n : Int))
  | '+' :: rest => (parseNatDigits rest).map (fun n => (n : Int))
  | s => (parseNatDigits s).map (fun n => (n : Int))

/-- JS `Number(message.internalDate)`: `undefined` gives NaN (`none`);
strings are trimmed and parsed. -/
def jsNumber : Option Str → Option Int
  | none => none
  | some s => parseDecInt (jsTrim s)

/-- The message of the `RangeError` thrown by `Date.prototype.toISOString`
on an invalid date. -/
def invalidTimeMsg : Str := ("Invalid time value".toList)

/-- The message of the `TypeError` thrown by reading `.headers` off a `null`
payload. -/
def nullPayloadMsg : Str := ("Cannot read properties of null (reading headers)".toList)

def failDecodePrefix : Str := ("Failed to decode email: ".toList)

/-- `new Date(t).toISOString()`, parameterized by the external ISO-8601
formatter `iso`: throws `Invalid time value` when the time value is NaN or
beyond the ECMAScript time range of ±8.64e15 milliseconds. -/
def toISOStringE (iso : Int → Str) : Option Int → Except Str Str
  | none => .error invalidTimeMsg
  | some t => if t.natAbs ≤ 8640000000000000 then .ok (iso t) else .error invalidTimeMsg

/-- The `catch` wrapper of `decodeEmail`. -/
def wrapError {α : Type} (p : Str) : Except Str α → Except Str α
  | .error m => .error (p ++ m)
  | .ok a => .ok a

/-- The record returned by `GmailEmailDecoder.decodeEmail`.  Note the `date`
field, which the Canonical Email Record of the spec does not list. -/
structure GDecodedEmail where
  id : Option Str
  date : Str
  threadId : Option Str
  labelIds : List Str
  headers : List (Str × Str)
  sender : Str
  subject : Str
  body : EmailBody
  attachments : List AttachmentDescriptor
deriving DecidableEq

/-- `GmailEmailDecoder.decodeEmail`, parameterized by the external base64
decoder `dec` and ISO formatter `iso`.  Mirrors the JS evaluation order: the
seed object literal (including the `date` field, which can throw) is
evaluated first, then the headers pass, then the part walk; any exception is
wrapped once with the `Failed to decode email: ` prefix. -/
def decodeEmail (dec : Str → Str) (iso : Int → Str) (msg : GMessage) :
    Except Str GDecodedEmail :=
  wrapError failDecodePrefix
    (match toISOStringE iso (jsNumber msg.internalDate) with
     | .error m => .error m
     | .ok date =>
       match msg.payload with
       | none => .error nullPayloadMsg
       | some payload =>
         let ha : HeadAcc :=
           match payload.headers with
           | some hs => hs.foldl processHeader {}
           | none => {}
         let acc : DecAcc :=
           match payload.parts with
           | some ps => decodeParts dec ps {}
           | none => decodeBody dec payload.asPart {}
         .ok { id := msg.id, date := date, threadId := msg.threadId,
               labelIds := msg.labelIds.getD [],
               headers := ha.headers, sender := ha.sender, subject := ha.subject,
               body := { plain := acc.plain, html := acc.html },
               attachments := acc.attachments })

/-- The decoded text a single leaf part contributes to `body.plain`: one
contribution exactly when the leaf has a body that is not a (truthy)
attachment, carries truthy inline data, and is declared `text/plain`. -/
def leafPlain (dec : Str → Str) (part : GPart) : List Str :=
  match part.body with
  | none => []
  | some body =>
    if strTruthy body.attachmentId then []
    else if strTruthy body.data then
      if part.mimeType = some ("text/plain".toList) then
        [dec (urlsafeToStd (body.data.getD []))]
      else []
    else []

mutual

/-- The `text/plain` contributions of a part forest, in depth-first
pre-order with sibling order preserved. -/
def plainOfParts (dec : Str → Str) : List GPart → List Str
  | [] => []
  | p :: ps => plainOfPart dec p ++ plainOfParts dec ps

/-- The `text/plain` contributions of a single part (recursing into nested
`parts` when present, ignoring that part's own body in that case). -/
def plainOfPart (dec : Str → Str) : GPart → List Str
  | .mk m f b (some ps) => plainOfParts dec ps
  | .mk m f b none => leafPlain dec (.mk m f b none)

end

/-- The `text/plain` contributions of a whole payload: its part tree when
`parts` is present, otherwise the payload itself as a single leaf. -/
def payloadPlainTexts (dec : Str → Str) (payload : GPayload) : List Str :=
  match payload.parts with
  | some ps => plainOfParts dec ps
  | none => leafPlain dec payload.asPart

/-!
## EML adapter (`preprocessor.js`, `EMLPreprocessor.process`)
-/

/-- The parsed from-address object of the external EML parser. -/
structure EmlFrom where
  name : Option Str := none
  email : Option Str := none

/-- One attachment as produced by the external EML parser (`eml-parse-js`):
`data64` is the attachment payload in base64 form. -/
structure EmlAttachment where
  id : Option Str := none
  name : Option Str := none
  contentType : Option Str := none
  data64 : Option Str := none

/-- The structured output of the external EML parser, as consumed by the
adapter.  `fromAddr` models the parser's `from` field (`from` is a reserved
word in Lean). -/
structure EmlJson where
  headers : List (Str × Str) := []
  fromAddr : Option EmlFrom := none
  subject : Option Str := none
  text : Option Str := none
  html : Option Str := none
  attachments : Option (List EmlAttachment) := none

/-- The record shape built by the EML adapter (the canonical record; no
`date` field here, unlike the Mail-API decoder's output). -/
structure ProcessedEmail where
  id : Str
  threadId : Str
  labelIds : List Str
  headers : List (Str × Str)
  sender : Str
  subject : Str
  body : EmailBody
  attachments : List AttachmentDescriptor
deriving DecidableEq

/-- The attachment mapping lambda of `EMLPreprocessor.process`:
`{id: att.id || '', filename: att.name || '', mimeType: att.contentType || '',
size: att.data64?.length || 0}`. -/
def emlAttachmentDescr (att : EmlAttachment) : AttachmentDescriptor :=
  { id := some (jsOrStr att.id [])
    filename := some (jsOrStr att.name [])
    mimeType := some (jsOrStr att.contentType [])
    size := some (jsOrNat (att.data64.map List.length) 0) }

/-- The reshaping step of `EMLPreprocessor.process` applied to the parser's
successful output; `now` is the `Date.now().toString()` synthesized
identifier. -/
def processEmlJson (now : Str) (e : EmlJson) : ProcessedEmail :=
  { id := now
    threadId := []
    labelIds := []
    headers := e.headers
    sender := jsOrStr (e.fromAddr.bind EmlFrom.email) []
    subject := jsOrStr e.subject []
    body := { plain := jsOrStr e.text [], html := jsOrStr e.html [] }
    attachments := (e.attachments.getD []).map emlAttachmentDescr }

/-- The length of the base64-decoded form of a base64 string, stated from
the spec's words (`size` = "length of the attachment's decoded payload"):
every 4 payload characters encode 3 bytes, padding excluded.  Used only to
compare the spec's claimed size against the size the adapter computes. -/
def base64DecodedLength (s : Str) : Nat :=
  ((s.filter (fun c => c != '=')).length * 3) / 4

/-!
## Concrete inputs used by the witnesses and counterexamples
-/

/-- The identity stand-in for the external base64 decoder. -/
def decId : Str → Str := fun s => s

/-- A trivial stand-in for the external ISO-8601 date formatter. -/
def isoNil : Int → Str := fun _ => []

/-- Scenario D input: `{sender:"  a@b.com  ", subject:"\n Hi \n", markdown:"x   y"}`. -/
def featuresScenarioD : Features :=
  { sender := ("  a@b.com  ".toList)
    subject := ("\n Hi \n".toList)
    markdown := ("x   y".toList) }

/-- A concrete tokenizer behaviour: two open-tag events. -/
def tokenizeExample : Str → List OpenTagEvent :=
  fun _ => [{ name := ("div".toList), attributes := [(("class".toList), ("container".toList))] },
            { name := ("b".toList), attributes := [] }]

def emailRecordExample : EmailRecord :=
  { body := { html := ("<div class=container><b>hi</b></div>".toList) } }

/-- A message whose payload is `null`. -/
def msgNullPayload : GMessage :=
  { internalDate := some ("1700000000000".toList), payload := none }

/-- A message with no `internalDate` at all but an otherwise well-formed
payload. -/
def msgNoInternalDate : GMessage :=
  { id := some ("m1".toList)
    payload := some { headers := some [{ name := ("From".toList), value := ("a@b".toList) }] } }

/-- A well-formed message that decodes successfully. -/
def msgSimpleOk : GMessage :=
  { internalDate := some ("0".toList), payload := some {} }

/-- The record `msgSimpleOk` decodes to under `decId`/`isoNil`. -/
def recSimpleOk : GDecodedEmail :=
  { id := none, date := [], threadId := none, labelIds := [], headers := [],
    sender := [], subject := [], body := {}, attachments := [] }

/-- A message with two headers sharing a lowercase name (`X-Dup`/`x-dup`)
and two `From` headers. -/
def msgDupHeaders : GMessage :=
  { internalDate := some ("0".toList)
    payload := some
      { headers := some [
          { name := ("X-Dup".toList), value := ("1".toList) },
          { name := ("x-dup".toList), value := ("2".toList) },
          { name := ("From".toList), value := ("first@x".toList) },
          { name := ("from".toList), value := ("second@x".toList) } ] } }

/-- A message whose headers have pairwise distinct lowercase names. -/
def msgDistinctHeaders : GMessage :=
  { internalDate := some ("0".toList)
    payload := some
      { headers := some [
          { name := ("From".toList), value := ("sender@example.com".toList) },
          { name := ("Subject".toList), value := ("Test Email".toList) },
          { name := ("To".toList), value := ("rcpt@example.com".toList) } ] } }

/-- The record `msgDistinctHeaders` decodes to under `decId`/`isoNil`. -/
def recDistinctHeaders : GDecodedEmail :=
  { id := none, date := [], threadId := none, labelIds := []
    headers := [ (("from".toList), ("sender@example.com".toList)),
                 (("subject".toList), ("Test Email".toList)),
                 (("to".toList), ("rcpt@example.com".toList)) ]
    sender := ("sender@example.com".toList), subject := ("Test Email".toList)
    body := {}, attachments := [] }

/-- A payload with two `text/plain` leaves, one of them nested. -/
def payloadTwoPlain : GPayload :=
  { parts := some
      [ .mk (some ("text/plain".toList)) none (some { data := some ("YQ".toList) }) none
      , .mk (some ("multipart/alternative".toList)) none none (some
          [ .mk (some ("text/plain".toList)) none (some { data := some ("Yg".toList) }) none ]) ] }

def msgTwoPlain : GMessage :=
  { internalDate := some ("0".toList), payload := some payloadTwoPlain }

/-- The record `msgTwoPlain` decodes to under `decId`/`isoNil`. -/
def recTwoPlain : GDecodedEmail :=
  { id := none, date := [], threadId := none, labelIds := [], headers := [],
    sender := [], subject := [], body := { plain := ("YQYg".toList), html := [] },
    attachments := [] }

/-- A leaf whose body carries an attachmentId that is the empty string
(present but falsy) together with inline data. -/
def partEmptyAttId : GPart :=
  .mk (some ("text/plain".toList)) none
    (some { attachmentId := some [], data := some ("eA".toList) }) none

def msgEmptyAttId : GMessage :=
  { internalDate := some ("0".toList), payload := some { parts := some [partEmptyAttId] } }

/-- An attachment leaf that carries both an attachmentId and inline data. -/
def partAttWithData : GPart :=
  .mk (some ("application/pdf".toList)) (some ("a.pdf".toList))
    (some { attachmentId := some ("att1".toList), data := some ("QUJD".toList), size := some 12345 })
    none

/-- An attachment leaf lacking `filename` and `body.size`. -/
def partAttNoMeta : GPart :=
  .mk (some ("application/pdf".toList)) none
    (some { attachmentId := some ("att1".toList) }) none

def msgAttNoMeta : GMessage :=
  { internalDate := some ("0".toList), payload := some { parts := some [partAttNoMeta] } }

/-- Parser output with one attachment whose base64 payload is `"QUJD"`
(which decodes to the three bytes `"ABC"`). -/
def emlJsonB64 : EmlJson :=
  { attachments := some [ { name := some ("f.bin".toList), data64 := some ("QUJD".toList) } ] }

/-- Parser output with one attachment that has no fields at all. -/
def emlJsonBareAtt : EmlJson :=
  { attachments := some [ {} ] }

/-!
## Claim C1: `extractMetaFeatures` and whitespace canonicalization
-/

/-- C1: the claim says `extractMetaFeatures` whitespace-canonicalizes the
joined context, so that Scenario D yields `"a@b.com Hi x y"`.  The code in
`featureExtraction.js` performs no canonicalization: on the Scenario D input
it returns the raw join `"  a@b.com   \n Hi \n x   y"`, which differs from
the claimed value, while applying the canonicalization (present in the
repository's alternate feature-extraction variant and asserted by its test
suite) to that raw join does give the claimed `"a@b.com Hi x y"`. -/
theorem extractMetaFeatures_scenarioD_not_canonicalized :
    (extractMetaFeatures featuresScenarioD).context = ("  a@b.com   \n Hi \n x   y".toList)
    ∧ (extractMetaFeatures featuresScenarioD).context ≠ ("a@b.com Hi x y".toList)
    ∧ (extractMetaFeatures featuresScenarioD).truncatedContext ≠ ("a@b.com Hi x y".toList)
    ∧ canonicalize ("  a@b.com   \n Hi \n x   y".toList) = ("a@b.com Hi x y".toList) := by
  refine ⟨by decide, by decide, by decide, by decide⟩

/-!
## Claim C6: truncation of the context
-/

/-- C6: `truncatedContext` never exceeds 512 characters; it is `context`
itself when `context` is at most 512 characters long, and exactly the first
512 characters of `context` otherwise. -/
theorem extractMetaFeatures_truncation (f : Features) :
    (extractMetaFeatures f).truncatedContext.length ≤ 512
    ∧ ((extractMetaFeatures f).context.length ≤ 512 →
        (extractMetaFeatures f).truncatedContext = (extractMetaFeatures f).context)
    ∧ (512 < (extractMetaFeatures f).context.length →
        (extractMetaFeatures f).truncatedContext = (extractMetaFeatures f).context.take 512) := by
  unfold extractMetaFeatures
  simp only
  set ctx := f.sender ++ [' '] ++ f.subject ++ [' '] ++ f.markdown with hctx
  by_cases h : ctx.length > 512
  · refine ⟨?_, ?_, ?_⟩
    · simp [h, List.length_take]
    · intro hle
      omega
    · intro _
      simp [h]
  · refine ⟨?_, ?_, ?_⟩
    · simp [h]
      omega
    · intro _
      simp [h]
    · intro hgt
      omega

/-- Witness for C6 at a concrete input. -/
theorem extractMetaFeatures_truncation_witness :
    (extractMetaFeatures featuresScenarioD).context.length ≤ 512
    ∧ (extractMetaFeatures featuresScenarioD).truncatedContext
        = (extractMetaFeatures featuresScenarioD).context :=
  ⟨by decide, (extractMetaFeatures_truncation featuresScenarioD).2.1 (by decide)⟩

/-!
## Claim C7: the tag sequence
-/

theorem tagSeqAux_length (p : Nat) (evs : List OpenTagEvent) :
    (tagSeqAux p evs).length = evs.length := by
  induction evs generalizing p with
  | nil => rfl
  | cons ev evs ih => simp [tagSeqAux, ih]

theorem tagSeqAux_map_tag_attrs (p : Nat) (evs : List OpenTagEvent) :
    (tagSeqAux p evs).map (fun o => (o.tag, o.attributes)) =
      evs.map (fun ev =>
        (ev.name, ev.attributes.map (fun a => ({ name := a.1, value := a.2 } : TagAttribute)))) := by
  induction evs generalizing p with
  | nil => rfl
  | cons ev evs ih => simp [tagSeqAux, ih]

theorem tagSeqAux_positions (p : Nat) (evs : List OpenTagEvent) :
    (tagSeqAux p evs).map TagOccurrence.position = List.range' p evs.length := by
  induction evs generalizing p with
  | nil => rfl
  | cons ev evs ih => simp [tagSeqAux, ih, List.range']

/-- C7: for every record and every tokenizer behaviour, `extractTagSequence`
is empty when `body.html` is empty; otherwise it has one entry per open-tag
event, in emission order, carrying the event's tag name and attributes; and
the `position` fields are exactly `0, 1, 2, …` (never reset). -/
theorem extractTagSequence_spec (tokenize : Str → List OpenTagEvent) (email : EmailRecord) :
    (email.body.html = [] → extractTagSequence tokenize email = [])
    ∧ (email.body.html ≠ [] →
        (extractTagSequence tokenize email).map (fun o => (o.tag, o.attributes)) =
          (tokenize email.body.html).map (fun ev =>
            (ev.name, ev.attributes.map (fun a => ({ name := a.1, value := a.2 } : TagAttribute)))))
    ∧ (extractTagSequence tokenize email).map TagOccurrence.position =
        List.range (extractTagSequence tokenize email).length := by
  refine ⟨?_, ?_, ?_⟩
  · intro h
    simp [extractTagSequence, h]
  · intro h
    simp [extractTagSequence, h, tagSeqAux_map_tag_attrs]
  · by_cases h : email.body.html = []
    · simp [extractTagSequence, h]
    · simp [extractTagSequence, h, tagSeqAux_positions, tagSeqAux_length,
        List.range_eq_range']

/-- Witness for C7 at a concrete record and tokenizer. -/
theorem extractTagSequence_spec_witness :
    (extractTagSequence tokenizeExample emailRecordExample).map (fun o => (o.tag, o.attributes)) =
      (tokenizeExample emailRecordExample.body.html).map (fun ev =>
        (ev.name, ev.attributes.map (fun a => ({ name := a.1, value := a.2 } : TagAttribute))))
    ∧ (extractTagSequence tokenizeExample emailRecordExample).map TagOccurrence.position =
        List.range (extractTagSequence tokenizeExample emailRecordExample).length :=
  ⟨(extractTagSequence_spec tokenizeExample emailRecordExample).2.1 (by decide),
   (extractTagSequence_spec tokenizeExample emailRecordExample).2.2⟩

/-!
## Claim C5: all-or-nothing decoding with a wrapped error
-/

/-- C5: `decodeEmail` either returns a complete record or a single error
whose message is `Failed to decode email: ` followed by the original
message (the `Except` result type itself models that no partial record can
escape); in particular a `null` payload always produces such an error. -/
theorem decodeEmail_wrapped_error (dec : Str → Str) (iso : Int → Str) (msg : GMessage) :
    ((∃ r, decodeEmail dec iso msg = .ok r)
      ∨ (∃ m, decodeEmail dec iso msg = .error (failDecodePrefix ++ m)))
    ∧ (msg.payload = none →
        ∃ m, decodeEmail dec iso msg = .error (failDecodePrefix ++ m)
          ∧ failDecodePrefix <+: (failDecodePrefix ++ m)) := by
  constructor
  · unfold decodeEmail
    set inner : Except Str GDecodedEmail :=
      (match toISOStringE iso (jsNumber msg.internalDate) with
       | .error m => .error m
       | .ok date =>
         match msg.payload with
         | none => .error nullPayloadMsg
         | some payload =>
           let ha : HeadAcc :=
             match payload.headers with
             | some hs => hs.foldl processHeader {}
             | none => {}
           let acc : DecAcc :=
             match payload.parts with
             | some ps => decodeParts dec ps {}
             | none => decodeBody dec payload.asPart {}
           .ok { id := msg.id, date := date, threadId := msg.threadId,
                 labelIds := msg.labelIds.getD [],
                 headers := ha.headers, sender := ha.sender, subject := ha.subject,
                 body := { plain := acc.plain, html := acc.html },
                 attachments := acc.attachments }) with hinner
    cases inner with
    | error m => exact Or.inr ⟨m, rfl⟩
    | ok r => exact Or.inl ⟨r, rfl⟩
  · intro hnull
    unfold decodeEmail
    rw [hnull]
    cases hdate : toISOStringE iso (jsNumber msg.internalDate) with
    | error m => exact ⟨m, rfl, List.prefix_append _ _⟩
    | ok d => exact ⟨nullPayloadMsg, rfl, List.prefix_append _ _⟩

/-- Witness for C5: the `null`-payload hypothesis discharged at a concrete
message. -/
theorem decodeEmail_wrapped_error_witness :
    ∃ m, decodeEmail decId isoNil msgNullPayload = .error (failDecodePrefix ++ m)
      ∧ failDecodePrefix <+: (failDecodePrefix ++ m) :=
  (decodeEmail_wrapped_error decId isoNil msgNullPayload).2 rfl

/-!
## Claim C10: the undocumented `date` field and invalid `internalDate`
-/

/-- C10: when `internalDate` is absent or does not convert to a (finite)
number, `decodeEmail` fails with the wrapped `Invalid time value` error even
if everything else is well formed, because the seed object literal computes
`new Date(Number(internalDate)).toISOString()` unconditionally and before
anything else; and every successfully decoded record carries the extra
`date` field, set to the ISO rendering of that timestamp. -/
theorem decodeEmail_internalDate (dec : Str → Str) (iso : Int → Str) (msg : GMessage) :
    (jsNumber msg.internalDate = none →
      decodeEmail dec iso msg = .error (failDecodePrefix ++ invalidTimeMsg))
    ∧ (∀ r, decodeEmail dec iso msg = .ok r →
        ∃ t, jsNumber msg.internalDate = some t
          ∧ t.natAbs ≤ 8640000000000000 ∧ r.date = iso t) := by
  constructor
  · intro hnan
    unfold decodeEmail
    rw [hnan]
    rfl
  · intro r hok
    unfold decodeEmail at hok
    cases ht : jsNumber msg.internalDate with
    | none => rw [ht] at hok; exact absurd hok (by simp [toISOStringE, wrapError])
    | some t =>
      rw [ht] at hok
      by_cases hrange : t.natAbs ≤ 8640000000000000
      · refine ⟨t, rfl, hrange, ?_⟩
        simp only [toISOStringE, hrange, if_pos] at hok
        cases hpl : msg.payload with
        | none => rw [hpl] at hok; exact absurd hok (by simp [wrapError])
        | some payload =>
          rw [hpl] at hok
          simp only [wrapError] at hok
          cases hok
          rfl
      · exfalso
        simp [toISOStringE, hrange, wrapError] at hok

/-- Witness for C10: both hypotheses discharged at concrete messages. -/
theorem decodeEmail_internalDate_witness :
    decodeEmail decId isoNil msgNoInternalDate = .error (failDecodePrefix ++ invalidTimeMsg)
    ∧ ∃ t, jsNumber msgSimpleOk.internalDate = some t
        ∧ t.natAbs ≤ 8640000000000000 ∧ recSimpleOk.date = isoNil t :=
  ⟨(decodeEmail_internalDate decId isoNil msgNoInternalDate).1 rfl,
   (decodeEmail_internalDate decId isoNil msgSimpleOk).2 recSimpleOk rfl⟩

/-!
## Claim C3: header processing
-/

theorem find?_append_eq {α : Type} (p : α → Bool) (l₁ l₂ : List α) :
    (l₁ ++ l₂).find? p =
      match l₁.find? p with
      | some a => some a
      | none => l₂.find? p := by
  induction l₁ with
  | nil => simp
  | cons a l ih =>
    by_cases h : p a
    · simp [List.find?_cons_of_pos _ h]
    · simp [List.find?_cons_of_neg _ h, ih]

theorem jsObjGet_append (log : List (Str × Str)) (n v k : Str) :
    jsObjGet (log ++ [(n, v)]) k = if n == k then some v else jsObjGet log k := by
  unfold jsObjGet
  rw [List.reverse_append]
  by_cases h : n == k
  · simp [List.find?_cons_of_pos, h]
  · simp [List.find?_cons_of_neg, h]

theorem processHeader_headers (acc : HeadAcc) (h : GHeader) :
    (processHeader acc h).headers = acc.headers ++ [(jsToLower h.name, h.value)] := by
  unfold processHeader
  dsimp only
  split_ifs <;> rfl

theorem processHeader_sender (acc : HeadAcc) (h : GHeader) :
    (processHeader acc h).sender =
      if jsToLower h.name = ("from".toList) then h.value else acc.sender := by
  unfold processHeader
  dsimp only
  split_ifs <;> rfl

theorem processHeader_subject (acc : HeadAcc) (h : GHeader) :
    (processHeader acc h).subject =
      if jsToLower h.name = ("subject".toList) then h.value else acc.subject := by
  unfold processHeader
  dsimp only
  split_ifs with h1 h2 <;> try rfl
  exact absurd (h1.symm.trans h2) (by decide)

theorem headersFold_headers (hs : List GHeader) (acc : HeadAcc) (k : Str) :
    jsObjGet (hs.foldl processHeader acc).headers k =
      ((hs.reverse.find? (fun h => jsToLower h.name == k)).map GHeader.value).or
        (jsObjGet acc.headers k) := by
  induction hs generalizing acc with
  | nil => simp
  | cons h hs ih =>
    rw [List.foldl_cons, ih, List.reverse_cons, find?_append_eq]
    cases hf : hs.reverse.find? (fun g => jsToLower g.name == k) with
    | some a => simp
    | none =>
      rw [processHeader_headers, jsObjGet_append]
      cases hk : jsToLower h.name == k <;> simp [List.find?, hk]

theorem headersFold_sender (hs : List GHeader) (acc : HeadAcc) :
    (hs.foldl processHeader acc).sender =
      ((hs.reverse.find? (fun h => jsToLower h.name == ("from".toList))).map
        GHeader.value).getD acc.sender := by
  induction hs generalizing acc with
  | nil => simp
  | cons h hs ih =>
    rw [List.foldl_cons, ih, List.reverse_cons, find?_append_eq]
    cases hf : hs.reverse.find? (fun g => jsToLower g.name == ("from".toList)) with
    | some a => simp
    | none =>
      dsimp only
      rw [processHeader_sender]
      cases hb : jsToLower h.name == ("from".toList)
      · rw [if_neg (by simpa using hb)]
        simp only [List.find?, hb]
        try rfl
      · rw [if_pos (by simpa using hb)]
        simp only [List.find?, hb]
        try rfl

theorem headersFold_subject (hs : List GHeader) (acc : HeadAcc) :
    (hs.foldl processHeader acc).subject =
      ((hs.reverse.find? (fun h => jsToLower h.name == ("subject".toList))).map
        GHeader.value).getD acc.subject := by
  induction hs generalizing acc with
  | nil => simp
  | cons h hs ih =>
    rw [List.foldl_cons, ih, List.reverse_cons, find?_append_eq]
    cases hf : hs.reverse.find? (fun g => jsToLower g.name == ("subject".toList)) with
    | some a => simp
    | none =>
      dsimp only
      rw [processHeader_subject]
      cases hb : jsToLower h.name == ("subject".toList)
      · rw [if_neg (by simpa using hb)]
        simp only [List.find?, hb]
        try rfl
      · rw [if_pos (by simpa using hb)]
        simp only [List.find?, hb]
        try rfl

/-- Extraction of the components of a successful decode. -/
theorem decodeEmail_ok_eq (dec : Str → Str) (iso : Int → Str) (msg : GMessage)
    (payload : GPayload) (r : GDecodedEmail)
    (hok : decodeEmail dec iso msg = .ok r) (hpl : msg.payload = some payload) :
    r.headers = (match payload.headers with
                 | some hs => hs.foldl processHeader {}
                 | none => ({} : HeadAcc)).headers
    ∧ r.sender = (match payload.headers with
                  | some hs => hs.foldl processHeader {}
                  | none => ({} : HeadAcc)).sender
    ∧ r.subject = (match payload.headers with
                   | some hs => hs.foldl processHeader {}
                   | none => ({} : HeadAcc)).subject
    ∧ r.body = { plain := (match payload.parts with
                           | some ps => decodeParts dec ps {}
                           | none => decodeBody dec payload.asPart {}).plain,
                 html := (match payload.parts with
                          | some ps => decodeParts dec ps {}
                          | none => decodeBody dec payload.asPart {}).html }
    ∧ r.attachments = (match payload.parts with
                       | some ps => decodeParts dec ps {}
                       | none => decodeBody dec payload.asPart {}).attachments := by
  unfold decodeEmail at hok
  cases hiso : toISOStringE iso (jsNumber msg.internalDate) with
  | error m => rw [hiso] at hok; exact absurd hok (by simp [wrapError])
  | ok d =>
    rw [hiso, hpl] at hok
    simp only [wrapError] at hok
    cases hok
    exact ⟨rfl, rfl, rfl, rfl, rfl⟩

/-- C3 (amended): for every successfully decoded message, a key of the
`headers` map holds the value of the *last* header in the payload's list
whose lowercased name is that key; `sender`/`subject` are the value of the
last `from`/`subject` header, defaulting to `""`.  Consequently the claimed
per-header property `headers[lowercase(name)] == value` (and the
`sender`/`subject` mirroring) holds exactly for each header not shadowed by
a later one with the same lowercase name. -/
theorem decodeEmail_headers_lookup (dec : Str → Str) (iso : Int → Str) (msg : GMessage)
    (payload : GPayload) (hs : List GHeader) (r : GDecodedEmail)
    (hok : decodeEmail dec iso msg = .ok r) (hpl : msg.payload = some payload)
    (hhs : payload.headers = some hs) :
    (∀ k, jsObjGet r.headers k =
        (hs.reverse.find? (fun h => jsToLower h.name == k)).map GHeader.value)
    ∧ r.sender = ((hs.reverse.find? (fun h => jsToLower h.name == ("from".toList))).map
        GHeader.value).getD []
    ∧ r.subject = ((hs.reverse.find? (fun h => jsToLower h.name == ("subject".toList))).map
        GHeader.value).getD []
    ∧ (∀ h : GHeader,
        hs.reverse.find? (fun g => jsToLower g.name == jsToLower h.name) = some h →
          jsObjGet r.headers (jsToLower h.name) = some h.value
          ∧ (jsToLower h.name = ("from".toList) → r.sender = h.value)
          ∧ (jsToLower h.name = ("subject".toList) → r.subject = h.value)) := by
  obtain ⟨hh, hse, hsu, _, _⟩ := decodeEmail_ok_eq dec iso msg payload r hok hpl
  rw [hhs] at hh hse hsu
  have hk : ∀ k, jsObjGet r.headers k =
      (hs.reverse.find? (fun h => jsToLower h.name == k)).map GHeader.value := by
    intro k
    rw [hh, headersFold_headers]
    simp [jsObjGet]
  have hsender : r.sender = ((hs.reverse.find?
      (fun h => jsToLower h.name == ("from".toList))).map GHeader.value).getD [] := by
    rw [hse, headersFold_sender]
  have hsubject : r.subject = ((hs.reverse.find?
      (fun h => jsToLower h.name == ("subject".toList))).map GHeader.value).getD [] := by
    rw [hsu, headersFold_subject]
  refine ⟨hk, hsender, hsubject, ?_⟩
  intro h hlast
  refine ⟨by rw [hk, hlast]; rfl, ?_, ?_⟩
  · intro hfrom
    rw [hsender, ← hfrom, hlast]
    rfl
  · intro hsub
    rw [hsubject, ← hsub, hlast]
    rfl

/-- Witness for C3 (amended) at a message whose headers have pairwise
distinct lowercase names. -/
theorem decodeEmail_headers_lookup_witness :
    jsObjGet recDistinctHeaders.headers (jsToLower ("From".toList))
        = some ("sender@example.com".toList)
    ∧ recDistinctHeaders.sender = ("sender@example.com".toList) := by
  have h := decodeEmail_headers_lookup decId isoNil msgDistinctHeaders
    (msgDistinctHeaders.payload.getD {})
    [ { name := ("From".toList), value := ("sender@example.com".toList) },
      { name := ("Subject".toList), value := ("Test Email".toList) },
      { name := ("To".toList), value := ("rcpt@example.com".toList) } ]
    recDistinctHeaders rfl rfl rfl
  have h4 := h.2.2.2 { name := ("From".toList), value := ("sender@example.com".toList) }
    (by decide)
  exact ⟨h4.1, h4.2.1 (by decide)⟩

/-- C3 counterexample: the claim as stated fails when two headers share a
lowercase name.  In `msgDupHeaders` the header `{name: "X-Dup", value: "1"}`
is in the list, but the decoded record has `headers["x-dup"] == "2"` (the
later assignment won), and likewise `{name: "From", value: "first@x"}` is in
the list while `sender == "second@x"`. -/
theorem decodeEmail_headers_lookup_counterexample :
    ((decodeEmail decId isoNil msgDupHeaders).toOption.map
        (fun r => (jsObjGet r.headers (jsToLower ("X-Dup".toList)), r.sender)))
      = some (some ("2".toList), ("second@x".toList))
    ∧ some ("2".toList) ≠ some ("1".toList)
    ∧ ("second@x".toList) ≠ ("first@x".toList) := by
  refine ⟨by decide, by decide, by decide⟩

/-!
## Claim C2: concatenation of `text/plain` leaves in traversal order
-/

theorem decodeBody_plain (dec : Str → Str) (part : GPart) (acc : DecAcc) :
    (decodeBody dec part acc).plain = acc.plain ++ (leafPlain dec part).flatten := by
  unfold decodeBody leafPlain
  cases hb : part.body with
  | none => simp
  | some body =>
    dsimp only
    split_ifs <;> simp

mutual

theorem decodeParts_plain (dec : Str → Str) : ∀ (ps : List GPart) (acc : DecAcc),
    (decodeParts dec ps acc).plain = acc.plain ++ (plainOfParts dec ps).flatten
  | [], acc => by simp [decodeParts, plainOfParts]
  | p :: ps, acc => by
    rw [decodeParts, plainOfParts, decodeParts_plain dec ps (decodePart dec p acc),
      decodePart_plain dec p acc, List.flatten_append, List.append_assoc]

theorem decodePart_plain (dec : Str → Str) : ∀ (p : GPart) (acc : DecAcc),
    (decodePart dec p acc).plain = acc.plain ++ (plainOfPart dec p).flatten
  | .mk m f b (some ps), acc => by
    rw [decodePart, plainOfPart, decodeParts_plain dec ps acc]
  | .mk m f b none, acc => by
    rw [decodePart, plainOfPart, decodeBody_plain]

end

/-- C2: for every Mail-API message that decodes successfully and whose part
tree carries two or more `text/plain` inline-data leaves, `body.plain` is
the concatenation of those leaves' decoded texts in depth-first pre-order
(sibling order preserved), with no separator.  (`payloadPlainTexts` lists
the decoded `text/plain` contributions in exactly that traversal order, and
`List.flatten` concatenates them with no separator.) -/
theorem decodeEmail_plain_concat (dec : Str → Str) (iso : Int → Str) (msg : GMessage)
    (payload : GPayload) (r : GDecodedEmail)
    (hok : decodeEmail dec iso msg = .ok r) (hpl : msg.payload = some payload)
    (htwo : 2 ≤ (payloadPlainTexts dec payload).length) :
    r.body.plain = (payloadPlainTexts dec payload).flatten := by
  obtain ⟨_, _, _, hbody, _⟩ := decodeEmail_ok_eq dec iso msg payload r hok hpl
  rw [hbody]
  unfold payloadPlainTexts
  cases hps : payload.parts with
  | some ps => simp [decodeParts_plain]
  | none => simp [decodeBody_plain]

/-- Witness for C2 at a message with one top-level and one nested
`text/plain` leaf. -/
theorem decodeEmail_plain_concat_witness :
    2 ≤ (payloadPlainTexts decId payloadTwoPlain).length
    ∧ recTwoPlain.body.plain = (payloadPlainTexts decId payloadTwoPlain).flatten :=
  ⟨by decide,
   decodeEmail_plain_concat decId isoNil msgTwoPlain payloadTwoPlain recTwoPlain
     rfl rfl (by decide)⟩

/-!
## Claim C4: attachment identification takes precedence
-/

/-- What `decodeBody` does on a leaf whose body has a truthy (non-empty)
attachmentId: push exactly one descriptor, touch nothing else. -/
theorem decodeBody_attach (dec : Str → Str) (part : GPart) (acc : DecAcc)
    (body : GBody) (aid : Str)
    (hb : part.body = some body) (ha : body.attachmentId = some aid) (hne : aid ≠ []) :
    decodeBody dec part acc =
      { acc with attachments := acc.attachments ++
          [{ id := some aid, filename := part.filename,
             mimeType := part.mimeType, size := body.size }] } := by
  have htr : strTruthy body.attachmentId = true := by
    rw [ha]
    cases aid with
    | nil => exact absurd rfl hne
    | cons c cs => rfl
  unfold decodeBody
  rw [hb]
  dsimp only
  rw [if_pos htr, ha]

/-- C4 (amended): a leaf part whose body carries a *non-empty* attachmentId
appends exactly one descriptor and leaves `body.plain`/`body.html` unchanged
by that leaf, even when the leaf also carries inline `body.data` (attachment
identification takes precedence over inline-data handling). -/
theorem decodeBody_attachment_precedence (dec : Str → Str) (part : GPart) (acc : DecAcc)
    (body : GBody) (aid : Str)
    (hb : part.body = some body) (ha : body.attachmentId = some aid) (hne : aid ≠ []) :
    (decodeBody dec part acc).attachments = acc.attachments ++
        [{ id := some aid, filename := part.filename,
           mimeType := part.mimeType, size := body.size }]
    ∧ (decodeBody dec part acc).plain = acc.plain
    ∧ (decodeBody dec part acc).html = acc.html := by
  rw [decodeBody_attach dec part acc body aid hb ha hne]
  exact ⟨rfl, rfl, rfl⟩

/-- Witness for C4 (amended) at a leaf carrying both an attachmentId and
inline data. -/
theorem decodeBody_attachment_precedence_witness :
    (decodeBody decId partAttWithData {}).attachments =
        [{ id := some ("att1".toList), filename := some ("a.pdf".toList),
           mimeType := some ("application/pdf".toList), size := some 12345 }]
    ∧ (decodeBody decId partAttWithData {}).plain = []
    ∧ (decodeBody decId partAttWithData {}).html = [] := by
  have h := decodeBody_attachment_precedence decId partAttWithData {}
    { attachmentId := some ("att1".toList), data := some ("QUJD".toList), size := some 12345 }
    ("att1".toList) rfl rfl (by decide)
  exact ⟨h.1, h.2.1, h.2.2⟩

/-- C4 counterexample: a leaf whose body carries an attachmentId that is
present but *empty* is not treated as an attachment (JS truthiness): its
inline data is decoded into `body.plain` and no descriptor is pushed, so the
claim as stated (for every body carrying an attachmentId) fails. -/
theorem decodeEmail_empty_attachmentId_counterexample :
    ((decodeEmail decId isoNil msgEmptyAttId).toOption.map
        (fun r => (r.attachments, r.body.plain)))
      = some ([], ("eA".toList))
    ∧ ("eA".toList) ≠ ([] : Str) :=
  ⟨by decide, by decide⟩

/-!
## Claim C9: attachment-descriptor field defaults
-/

/-- C9 (amended): the EML adapter defaults omitted attachment fields (empty
string for `id`/`filename`/`mimeType`, `0` for `size`), but the Mail-API
decoder copies `attachmentId`/`filename`/`mimeType`/`size` verbatim from the
source part, leaving absent `filename`/`size` undefined rather than
defaulted. -/
theorem attachment_descriptor_defaults :
    (∀ (dec : Str → Str) (part : GPart) (acc : DecAcc) (body : GBody) (aid : Str),
        part.body = some body → body.attachmentId = some aid → aid ≠ [] →
        (decodeBody dec part acc).attachments = acc.attachments ++
          [{ id := some aid, filename := part.filename,
             mimeType := part.mimeType, size := body.size }])
    ∧ (∀ att : EmlAttachment,
        (att.id = none → (emlAttachmentDescr att).id = some [])
        ∧ (att.name = none → (emlAttachmentDescr att).filename = some [])
        ∧ (att.contentType = none → (emlAttachmentDescr att).mimeType = some [])
        ∧ (att.data64 = none → (emlAttachmentDescr att).size = some 0)) := by
  constructor
  · intro dec part acc body aid hb ha hne
    rw [decodeBody_attach dec part acc body aid hb ha hne]
  · intro att
    refine ⟨?_, ?_, ?_, ?_⟩ <;> intro h <;> simp [emlAttachmentDescr, h, jsOrStr, jsOrNat]

/-- Witness for C9 (amended): a Mail-API attachment leaf with no
`filename`/`size`, and an EML attachment with no fields. -/
theorem attachment_descriptor_defaults_witness :
    (decodeBody decId partAttNoMeta {}).attachments =
        [{ id := some ("att1".toList), filename := none,
           mimeType := some ("application/pdf".toList), size := none }]
    ∧ (emlAttachmentDescr ({} : EmlAttachment)).filename = some []
    ∧ (emlAttachmentDescr ({} : EmlAttachment)).size = some 0 := by
  have h1 := attachment_descriptor_defaults.1 decId partAttNoMeta {}
    { attachmentId := some ("att1".toList) } ("att1".toList) rfl rfl (by decide)
  have h2 := attachment_descriptor_defaults.2 ({} : EmlAttachment)
  exact ⟨h1, h2.2.1 rfl, h2.2.2.2 rfl⟩

/-- C9 counterexample: the claim's "Mail-API attachment leaf lacking
filename or body.size still yields filename == "" and size == 0" is false —
the decoder stores the absent source values themselves (JS `undefined`,
modelled `none`), not the defaults. -/
theorem gmail_attachment_no_defaults_counterexample :
    ((decodeEmail decId isoNil msgAttNoMeta).toOption.map
        (fun r => r.attachments.map (fun a => (a.filename, a.size))))
      = some [(none, none)]
    ∧ (none : Option Str) ≠ some ([] : Str)
    ∧ (none : Option Nat) ≠ some 0 :=
  ⟨by decide, by decide, by decide⟩

/-!
## Claim C8: EML attachment mapping
-/

/-- C8 (amended): the EML adapter maps each parser attachment, in order, to
a descriptor whose `id`/`filename`/`mimeType` default to `""` when the
source field is absent, and whose `size` is the length of the attachment's
*base64-encoded* payload (`data64`), or `0` when that payload is absent. -/
theorem processEml_attachments_spec (now : Str) (e : EmlJson) :
    (processEmlJson now e).attachments.length = (e.attachments.getD []).length
    ∧ (∀ (i : Nat) (hi : i < (e.attachments.getD []).length)
        (hj : i < (processEmlJson now e).attachments.length),
        (processEmlJson now e).attachments.get ⟨i, hj⟩
          = emlAttachmentDescr ((e.attachments.getD []).get ⟨i, hi⟩))
    ∧ (∀ att : EmlAttachment,
        (att.id = none → (emlAttachmentDescr att).id = some [])
        ∧ (att.name = none → (emlAttachmentDescr att).filename = some [])
        ∧ (att.contentType = none → (emlAttachmentDescr att).mimeType = some [])
        ∧ (∀ s : Str, att.data64 = some s → (emlAttachmentDescr att).size = some s.length)
        ∧ (att.data64 = none → (emlAttachmentDescr att).size = some 0)) := by
  refine ⟨by simp [processEmlJson], ?_, ?_⟩
  · intro i hi hj
    simp [processEmlJson]
  · intro att
    refine ⟨?_, ?_, ?_, ?_, ?_⟩ <;> intro h
    · simp [emlAttachmentDescr, h, jsOrStr]
    · simp [emlAttachmentDescr, h, jsOrStr]
    · simp [emlAttachmentDescr, h, jsOrStr]
    · intro hd
      cases hs : h.length with
      | zero =>
        simp [emlAttachmentDescr, hd, jsOrNat, hs, List.length_eq_zero.mp hs]
      | succ n =>
        simp [emlAttachmentDescr, hd, jsOrNat, hs]
    · simp [emlAttachmentDescr, h, jsOrNat]

/-- Witness for C8 (amended) at concrete parser output. -/
theorem processEml_attachments_spec_witness :
    (∃ hj : 0 < (processEmlJson [] emlJsonB64).attachments.length,
      ∃ hi : 0 < (emlJsonB64.attachments.getD []).length,
        (processEmlJson [] emlJsonB64).attachments.get ⟨0, hj⟩
          = emlAttachmentDescr ((emlJsonB64.attachments.getD []).get ⟨0, hi⟩))
    ∧ (emlAttachmentDescr { name := some ("f.bin".toList), data64 := some ("QUJD".toList) }).size
        = some 4
    ∧ (emlAttachmentDescr ({} : EmlAttachment)).id = some [] := by
  have h := processEml_attachments_spec [] emlJsonB64
  refine ⟨⟨by decide, by decide, h.2.1 0 (by decide) (by decide)⟩, ?_, ?_⟩
  · exact (h.2.2 { name := some ("f.bin".toList), data64 := some ("QUJD".toList) }).2.2.2.1
      ("QUJD".toList) rfl
  · exact (h.2.2 ({} : EmlAttachment)).1 rfl

/-- C8 counterexample: for the attachment with base64 payload `"QUJD"` the
adapter records `size == 4` (the length of the base64 text), while the
claimed "length of the decoded payload" is `3` — the two differ. -/
theorem emlSize_not_decoded_length_counterexample :
    ((processEmlJson [] emlJsonB64).attachments.map AttachmentDescriptor.size) = [some 4]
    ∧ base64DecodedLength ("QUJD".toList) = 3
    ∧ (4 : Nat) ≠ 3 :=
  ⟨by decide, by decide, by decide⟩

/-!
## Supporting development: the canonicalization is idempotent

The spec asserts idempotence of the whitespace canonicalization.  The
canonicalization is absent from `featureExtraction.js` (see claim C1), but
the repository's alternate feature-extraction variant and its test suite use
it; these theorems verify the asserted idempotence for that operation.
-/

theorem dropWhile_head_false {α : Type} (p : α → Bool) :
    ∀ (l : List α) (c : α) (t : List α), l.dropWhile p = c :: t → p c = false := by
  intro l
  induction l with
  | nil => intro c t h; simp at h
  | cons a l ih =>
    intro c t h
    rw [List.dropWhile_cons] at h
    by_cases ha : p a = true
    · rw [if_pos ha] at h
      exact ih c t h
    · rw [if_neg ha] at h
      cases h
      simp at ha
      exact ha

theorem dropWhile_eq_append {α : Type} (p : α → Bool) :
    ∀ l : List α, ∃ t, l = t ++ l.dropWhile p := by
  intro l
  induction l with
  | nil => exact ⟨[], rfl⟩
  | cons a l ih =>
    rw [List.dropWhile_cons]
    by_cases ha : p a = true
    · obtain ⟨t, ht⟩ := ih
      exact ⟨a :: t, by rw [if_pos ha]; simpa using ht⟩
    · exact ⟨[], by rw [if_neg ha]; simp⟩

theorem mem_dropWhile_sub {α : Type} (p : α → Bool) :
    ∀ (l : List α) (c : α), c ∈ l.dropWhile p → c ∈ l := by
  intro l
  induction l with
  | nil => intro c h; simp at h
  | cons a l ih =>
    intro c h
    rw [List.dropWhile_cons] at h
    by_cases ha : p a = true
    · rw [if_pos ha] at h
      exact List.mem_cons_of_mem a (ih c h)
    · rw [if_neg ha] at h
      exact h

theorem chain'_dropWhile {α : Type} (R : α → α → Prop) (p : α → Bool) :
    ∀ l : List α, List.Chain' R l → List.Chain' R (l.dropWhile p) := by
  intro l
  induction l with
  | nil => intro h; simpa using h
  | cons a l ih =>
    intro h
    rw [List.dropWhile_cons]
    by_cases ha : p a = true
    · rw [if_pos ha]
      exact ih h.tail
    · rw [if_neg ha]
      exact h

theorem collapseWS_mem_space :
    ∀ (s : Str) (b : Bool) (c : Char), c ∈ collapseWS b s → jsIsSpace c = true → c = ' ' := by
  intro s
  induction s with
  | nil => intro b c h; simp [collapseWS] at h
  | cons a s ih =>
    intro b c h hws
    rw [collapseWS] at h
    by_cases ha : jsIsSpace a = true
    · rw [if_pos ha] at h
      cases b with
      | true => exact ih true c h hws
      | false =>
        simp only [Bool.false_eq_true, if_false] at h
        rcases List.mem_cons.mp h with h1 | h2
        · exact h1
        · exact ih true c h2 hws
    · rw [if_neg ha] at h
      rcases List.mem_cons.mp h with h1 | h2
      · rw [h1] at hws
        exact absurd hws ha
      · exact ih false c h2 hws

theorem collapseWS_true_head :
    ∀ (s : Str) (c : Char) (t : Str), collapseWS true s = c :: t → jsIsSpace c = false := by
  intro s
  induction s with
  | nil => intro c t h; simp [collapseWS] at h
  | cons a s ih =>
    intro c t h
    rw [collapseWS] at h
    by_cases ha : jsIsSpace a = true
    · rw [if_pos ha] at h
      simp only [if_pos rfl] at h
      exact ih c t h
    · rw [if_neg ha] at h
      cases h
      simpa using ha

theorem collapseWS_chain :
    ∀ (s : Str) (b : Bool), List.Chain' wsApart (collapseWS b s) := by
  intro s
  induction s with
  | nil => intro b; simp [collapseWS]
  | cons a s ih =>
    intro b
    rw [collapseWS]
    by_cases ha : jsIsSpace a = true
    · rw [if_pos ha]
      cases b with
      | true => exact ih true
      | false =>
        simp only [Bool.false_eq_true, if_false]
        rw [List.chain'_cons']
        constructor
        · intro y hy
          cases hh : collapseWS true s with
          | nil => rw [hh] at hy; simp at hy
          | cons c t =>
            rw [hh] at hy
            have hyc : c = y := by simpa using hy
            intro hcon
            rw [← hyc] at hcon
            exact absurd hcon.2 (by simp [collapseWS_true_head s c t hh])
        · exact ih true
    · rw [if_neg ha]
      rw [List.chain'_cons']
      constructor
      · intro y hy
        intro hcon
        exact absurd hcon.1 (by simp [ha])
      · exact ih false

theorem collapseWS_id :
    ∀ t : Str, (∀ c ∈ t, jsIsSpace c = true → c = ' ') → List.Chain' wsApart t →
      collapseWS false t = t
      ∧ ((∀ c r, t = c :: r → jsIsSpace c = false) → collapseWS true t = t) := by
  intro t
  induction t with
  | nil => intro _ _; exact ⟨rfl, fun _ => rfl⟩
  | cons a t ih =>
    intro hmem hchain
    have hmem' : ∀ c ∈ t, jsIsSpace c = true → c = ' ' :=
      fun c hc => hmem c (List.mem_cons_of_mem a hc)
    obtain ⟨ih1, ih2⟩ := ih hmem' hchain.tail
    by_cases ha : jsIsSpace a = true
    · have ha' : a = ' ' := hmem a (List.mem_cons_self a t) ha
      have htail : collapseWS true t = t := by
        apply ih2
        intro c r hcr
        rcases List.chain'_cons'.mp hchain with ⟨hR, _⟩
        have := hR c (by rw [hcr]; rfl)
        by_contra hcc
        exact this ⟨ha, by simpa using hcc⟩
      constructor
      · rw [collapseWS, if_pos ha]
        simp only [Bool.false_eq_true, if_false]
        rw [htail, ha']
      · intro hhead
        exact absurd (hhead a t rfl) (by simp [ha])
    · constructor
      · rw [collapseWS, if_neg ha, ih1]
      · intro _
        rw [collapseWS, if_neg ha, ih1]

theorem jsTrim_id (t : Str)
    (h1 : t.dropWhile jsIsSpace = t)
    (h2 : t.reverse.dropWhile jsIsSpace = t.reverse) :
    jsTrim t = t := by
  unfold jsTrim
  rw [h1, h2, List.reverse_reverse]

/-- `canonicalize` output: all whitespace is `' '`, no two adjacent
whitespace characters, and no leading or trailing whitespace. -/
theorem canonicalize_canon (s : Str) :
    (∀ c ∈ canonicalize s, jsIsSpace c = true → c = ' ')
    ∧ List.Chain' wsApart (canonicalize s)
    ∧ (canonicalize s).dropWhile jsIsSpace = canonicalize s
    ∧ (canonicalize s).reverse.dropWhile jsIsSpace = (canonicalize s).reverse := by
  unfold canonicalize jsTrim
  set u := collapseWS false s with hu
  set v := u.dropWhile jsIsSpace with hv
  set w := v.reverse.dropWhile jsIsSpace with hw
  refine ⟨?_, ?_, ?_, ?_⟩
  · intro c hc hws
    have h1 : c ∈ w := List.mem_reverse.mp hc
    have h2 : c ∈ v.reverse := mem_dropWhile_sub jsIsSpace v.reverse c h1
    have h3 : c ∈ v := List.mem_reverse.mp h2
    have h4 : c ∈ u := mem_dropWhile_sub jsIsSpace u c h3
    rw [hu] at h4
    exact collapseWS_mem_space s false c h4 hws
  · have hcu : List.Chain' wsApart u := collapseWS_chain s false
    have hcv : List.Chain' wsApart v := chain'_dropWhile _ _ _ hcu
    have hsymm : ∀ a b, wsApart a b → wsApart b a := by
      intro a b hab hcon
      exact hab ⟨hcon.2, hcon.1⟩
    have hcv' : List.Chain' wsApart v.reverse := by
      rw [List.chain'_reverse]
      exact hcv.imp (fun a b h => hsymm a b h)
    have hcw : List.Chain' wsApart w := chain'_dropWhile _ _ _ hcv'
    rw [List.chain'_reverse]
    exact hcw.imp (fun a b h => hsymm a b h)
  · -- head of w.reverse is non-whitespace: w.reverse is a prefix of v
    cases hwr : w.reverse with
    | nil => simp
    | cons c r =>
      -- w is a suffix of v.reverse, hence w.reverse a prefix of v
      obtain ⟨pre, hpre⟩ := dropWhile_eq_append jsIsSpace v.reverse
      have hvsplit : v = w.reverse ++ pre.reverse := by
        have := congrArg List.reverse hpre
        rw [List.reverse_reverse, List.reverse_append] at this
        rw [← hw] at this
        exact this
      have hvhead : ∃ t', v = c :: t' := by
        rw [hvsplit, hwr]
        exact ⟨r ++ pre.reverse, by simp⟩
      obtain ⟨t', ht'⟩ := hvhead
      have hc : jsIsSpace c = false := dropWhile_head_false jsIsSpace u c t' (by rw [← hv, ← ht'])
      rw [List.dropWhile_cons, if_neg (by simp [hc])]
  · cases hwc : w with
    | nil => simp
    | cons c r =>
      have hvr : List.dropWhile jsIsSpace v.reverse = c :: r := by
        rw [← hw]
        exact hwc
      have hc : jsIsSpace c = false := dropWhile_head_false jsIsSpace v.reverse c r hvr
      rw [List.reverse_reverse, List.dropWhile_cons, if_neg (by simp [hc])]

/-- The whitespace canonicalization is idempotent. -/
theorem canonicalize_idempotent (s : Str) :
    canonicalize (canonicalize s) = canonicalize s := by
  obtain ⟨hmem, hchain, hhead, hlast⟩ := canonicalize_canon s
  have hid := collapseWS_id (canonicalize s) hmem hchain
  conv_lhs => rw [canonicalize]
  rw [hid.1]
  exact jsTrim_id _ hhead hlast
